import Mathlib

/-!
Verification of the Bermudan-option pricing library (backward induction,
density-integration and AMC rollback methods, polynomial regression,
theta-method PDE stepper, Hull-White analytic formulas).

Arrays of floats are modelled as lists of rationals (`Vec`, `Mat`) for the
purely arithmetic components, and as real-valued functions for the analytic
Hull-White formulas (which involve exp, log, sqrt and the normal CDF).
External library routines (scipy lstsq, scipy brentq, scipy CubicSpline,
scipy norm.cdf, the model numeraire consumed by the AMC solver) are taken
as explicit function parameters: every theorem quantifies over them, or
constrains them by their documented contract.
-/

namespace IRM

/-- Vectors (1d numpy arrays) over the rationals. -/
abbrev Vec := List ℚ

/-- Matrices (2d numpy arrays), stored as a list of rows. -/
abbrev Mat := List Vec

/-- Elementwise addition of two vectors (numpy +). -/
def addVec (a b : Vec) : Vec := List.zipWith (· + ·) a b

/-- Elementwise subtraction of two vectors (numpy -). -/
def subVec (a b : Vec) : Vec := List.zipWith (· - ·) a b

/-- Elementwise product of two vectors (numpy *). -/
def mulVec (a b : Vec) : Vec := List.zipWith (· * ·) a b

/-- Elementwise quotient of two vectors (numpy /). -/
def divVec (a b : Vec) : Vec := List.zipWith (· / ·) a b

/-- Elementwise maximum of two vectors (np.maximum). -/
def maxVec (a b : Vec) : Vec := List.zipWith max a b

/-- Arithmetic mean of a vector (np.mean); the empty mean, NaN in numpy,
is the junk value 0 here. -/
def np_mean (v : Vec) : ℚ := v.sum / v.length

/-- Three-argument zipWith, used for elementwise expressions over three
aligned arrays. -/
def zipWith3 (f : ℚ → ℚ → ℚ → ℚ) : Vec → Vec → Vec → Vec
  | a :: as, b :: bs, c :: cs => f a b c :: zipWith3 f as bs cs
  | _, _, _ => []

/-- Linear interpolation np.interp(t, xs, ys) for ascending xs, clamping
outside the grid. -/
def np_interp (t : ℚ) : Vec → Vec → ℚ
  | [_], y :: _ => y
  | x₁ :: x₂ :: xs, y₁ :: y₂ :: ys =>
      if t ≤ x₁ then y₁
      else if t ≤ x₂ then y₁ + (y₂ - y₁) * (t - x₁) / (x₂ - x₁)
      else np_interp t (x₂ :: xs) (y₂ :: ys)
  | _, _ => 0

/-- np.searchsorted(xs, t) for ascending xs (side left): the number of
entries strictly below t. -/
def searchsorted (xs : Vec) (t : ℚ) : ℕ := (xs.takeWhile (· < t)).length

/-! ## Regression engine (src/methods/regression.py) -/

/-- Polynomial degrees for n variables up to order k-1
(multi_index_set from regression.py).  The source recursion never
terminates for n = 0, so that case is mapped to the empty list; all
statements below assume 1 ≤ n as the source callers do. -/
def multi_index_set : ℕ → ℕ → List (List ℕ)
  | 0, _ => []
  | 1, k => (List.range k).map (fun i => [i])
  | n + 2, k =>
      (List.range k).flatMap (fun i =>
        (multi_index_set (n + 1) (k - i)).map (fun s => i :: s))

/-- One row of the design matrix: the monomial with exponents alpha
evaluated columnwise on the control matrix (inner double loop of
Regression.monomials, starting from np.ones). -/
def monomialRow (control : Mat) (alpha : List ℕ) (nPaths : ℕ) : Vec :=
  (List.zipWith (fun v e => v.map (· ^ e)) control alpha).foldl mulVec
    (List.replicate nPaths 1)

/-- Regression.monomials for a 2d control matrix: one row per multi-index. -/
def monomials (mis : List (List ℕ)) (control : Mat) : Mat :=
  mis.map (fun alpha => monomialRow control alpha (control.headD []).length)

/-- Fitted regression state: the multi-index set and the coefficient
vector beta. -/
structure Regression where
  multi_idx_set : List (List ℕ)
  beta : Vec

/-- Regression constructor (Regression.__init__): build the monomial
basis for the control variables, assemble the design matrix and solve the
least-squares system.  The scipy lstsq solver is external and passed as a
function argument mapping the design matrix (one row per sample after the
transpose) and the observations to the coefficient vector. -/
def mkRegression (lstsq : Mat → Vec → Vec) (controls : Mat)
    (observations : Vec) (max_polynomial_degree : ℕ) : Regression :=
  let mis := multi_index_set controls.length (max_polynomial_degree + 1)
  { multi_idx_set := mis
    beta := lstsq ((monomials mis controls).transpose) observations }

/-- Regression.value: evaluate the fitted polynomial at new control
points, beta dot monomials(control). -/
def Regression.value (R : Regression) (control : Mat) : Vec :=
  (List.zipWith (fun b row => row.map (b * ·)) R.beta
      (monomials R.multi_idx_set control)).foldl addVec
    (List.replicate (control.headD []).length 0)

/-! ### Completeness and distinctness of the monomial multi-index set -/

theorem mem_multi_index_set {n k : ℕ} (hn : 1 ≤ n) (e : List ℕ) :
    e ∈ multi_index_set n k ↔ e.length = n ∧ e.sum < k := by
  induction n generalizing k e with
  | zero => omega
  | succ m ih =>
    match m with
    | 0 =>
      simp only [multi_index_set, List.mem_map, List.mem_range]
      constructor
      · rintro ⟨i, hi, rfl⟩
        simp [hi]
      · rintro ⟨hlen, hsum⟩
        match e with
        | [a] => exact ⟨a, by simpa using hsum, rfl⟩
    | m' + 1 =>
      simp only [multi_index_set, List.mem_flatMap, List.mem_map, List.mem_range]
      constructor
      · rintro ⟨i, hi, s, hs, rfl⟩
        obtain ⟨hslen, hssum⟩ := (ih (by omega) s).1 hs
        refine ⟨by simp [hslen], ?_⟩
        simp only [List.sum_cons]
        omega
      · rintro ⟨hlen, hsum⟩
        match e with
        | a :: s =>
          simp only [List.sum_cons] at hsum
          simp only [List.length_cons] at hlen
          refine ⟨a, by omega, s, (ih (by omega) s).2 ⟨by omega, by omega⟩, rfl⟩

theorem nodup_multi_index_set {n : ℕ} (hn : 1 ≤ n) (k : ℕ) :
    (multi_index_set n k).Nodup := by
  induction n generalizing k with
  | zero => omega
  | succ m ih =>
    match m with
    | 0 =>
      exact (List.nodup_range k).map (fun a b h => by simpa using h)
    | m' + 1 =>
      rw [multi_index_set, List.nodup_flatMap]
      refine ⟨fun i _ => (ih (by omega) (k - i)).map
        (fun a b h => by simpa using h), ?_⟩
      refine List.Pairwise.imp ?_ (List.pairwise_lt_range k)
      intro i j hij
      intro e hei hej
      simp only [List.mem_map] at hei hej
      obtain ⟨s, _, rfl⟩ := hei
      obtain ⟨s', _, h⟩ := hej
      exact absurd (List.cons.injEq .. ▸ h).1 (by omega)

/-- C6: for every number of control variables n_vars ≥ 1 and every maximum
degree d ≥ 0, the monomial basis enumerated by the Regression constructor
(via multi_index_set(n_vars, d+1)) is exactly the set of all n_vars-tuples
of non-negative integer exponents with total degree at most d, with no
tuple repeated and none of total degree at most d omitted. -/
theorem regression_basis_exactly_bounded_degree
    (lstsq : Mat → Vec → Vec) (controls : Mat) (observations : Vec)
    (d : ℕ) (hn : 1 ≤ controls.length) :
    (∀ e : List ℕ,
        e ∈ (mkRegression lstsq controls observations d).multi_idx_set ↔
          e.length = controls.length ∧ e.sum ≤ d) ∧
      (mkRegression lstsq controls observations d).multi_idx_set.Nodup := by
  constructor
  · intro e
    rw [show (mkRegression lstsq controls observations d).multi_idx_set =
        multi_index_set controls.length (d + 1) from rfl,
      mem_multi_index_set hn]
    omega
  · exact nodup_multi_index_set hn (d + 1)

/-- Witness for C6 at n_vars = 2, d = 1: the enumerated basis is
[[0,0],[0,1],[1,0]], which has the claimed properties. -/
theorem regression_basis_exactly_bounded_degree_witness :
    1 ≤ ([[ (1:ℚ), 2], [3, 4]] : Mat).length ∧
      ((∀ e : List ℕ,
          e ∈ (mkRegression (fun _ o => o) [[(1:ℚ), 2], [3, 4]] [5, 6] 1).multi_idx_set ↔
            e.length = 2 ∧ e.sum ≤ 1) ∧
        (mkRegression (fun _ o => o) [[(1:ℚ), 2], [3, 4]] [5, 6] 1).multi_idx_set.Nodup) :=
  ⟨by decide,
    regression_basis_exactly_bounded_degree (fun _ o => o)
      [[(1 : ℚ), 2], [3, 4]] [5, 6] 1 (by decide)⟩

/-! ## Backward induction engine (src/bermudan_option.py) -/

/-- A state batch as handled by bermudan_option_npv: grid methods return a
1d array of driving-factor values, Monte Carlo methods a 2d array of shape
(n_states, n_paths). -/
inductive NpState where
  | vec : Vec → NpState
  | mat : Mat → NpState

/-- x.shape[-1]: the number of points of the batch (rows of a 2d state
array are assumed rectangular, as in numpy). -/
def NpState.lastDim : NpState → ℕ
  | .vec v => v.length
  | .mat m => (m.headD []).length

/-- x.reshape((-1, x.shape[-1])): view the batch as a 2d array. -/
def NpState.reshape2 : NpState → Mat
  | .vec v => [v]
  | .mat m => m

/-- The driving-state row used for the final interpolation: x itself for a
1d batch, x[0] for a 2d (Monte Carlo) batch. -/
def NpState.row0 : NpState → Vec
  | .vec v => v
  | .mat m => m.headD []

/-- The rollback-method contract: states(T) and roll_back(T0,T1,x1,U1,H1). -/
structure Method where
  states : ℚ → NpState
  roll_back : ℚ → ℚ → NpState → Vec → Vec → NpState × Vec

/-- A payoff object: at(x) on a 2d state batch. -/
abbrev Payoff := Mat → Vec

/-- One iteration of the backward induction loop of bermudan_option_npv at
loop counter k (running n, n-1, ..., 1): at k = n initialize x from
method.states at the last expiry and H = 0, otherwise roll back from
expiry k (0-based index k) to expiry k-1; then evaluate the payoff with
0-based index k-1 on the current states. -/
def bermudanBody (method : Method) (expiry_times : List ℚ)
    (underlying_payoffs : List Payoff) (n k : ℕ)
    (s : NpState × Vec × Vec) : NpState × Vec × Vec :=
  let xH :=
    if k = n then
      let x := method.states (expiry_times.getD (k - 1) 0)
      (x, List.replicate x.lastDim 0)
    else
      method.roll_back (expiry_times.getD (k - 1) 0) (expiry_times.getD k 0)
        s.1 s.2.1 s.2.2
  (xH.1, (underlying_payoffs.getD (k - 1) (fun _ => [])) xH.1.reshape2, xH.2)

/-- The backward induction for-loop: iterate bermudanBody for loop counter
values k, k-1, ..., 1. -/
def bermudanLoop (method : Method) (expiry_times : List ℚ)
    (underlying_payoffs : List Payoff) (n : ℕ) :
    ℕ → NpState × Vec × Vec → NpState × Vec × Vec
  | 0, s => s
  | k + 1, s =>
      bermudanLoop method expiry_times underlying_payoffs n k
        (bermudanBody method expiry_times underlying_payoffs n (k + 1) s)

/-- bermudan_option_npv from bermudan_option.py: run the backward
induction loop over all expiry times, make the final roll_back to time 0,
and read the npv off by linear interpolation at driving state 0.  The
initial loop state is irrelevant: the first iteration (k = n) overwrites
it, matching the Python code where x, U, H are first assigned there. -/
def bermudan_option_npv (expiry_times : List ℚ)
    (underlying_payoffs : List Payoff) (method : Method) : ℚ :=
  let n := expiry_times.length
  let s := bermudanLoop method expiry_times underlying_payoffs n n
    (NpState.vec [], [], [])
  let xH := method.roll_back 0 (expiry_times.getD 0 0) s.1 s.2.1 s.2.2
  np_interp 0 xH.1.row0 xH.2

/-- Modelled from the claim wording (specification 4.1): the state
(x, U, H) after processing the i-th exercise date counted from the last:
at the last date x = method.states(T_last), H = 0 at every point of x and
U = payoffs[last].at(x); one date earlier per step, first roll back from
the date just processed, then evaluate that date's payoff on the current
states. -/
def bermudanSpecState (method : Method) (expiry_times : List ℚ)
    (underlying_payoffs : List Payoff) : ℕ → NpState × Vec × Vec
  | 0 =>
      let n := expiry_times.length
      let x := method.states (expiry_times.getD (n - 1) 0)
      (x, (underlying_payoffs.getD (n - 1) (fun _ => [])) x.reshape2,
        List.replicate x.lastDim 0)
  | i + 1 =>
      let n := expiry_times.length
      let s := bermudanSpecState method expiry_times underlying_payoffs i
      let j := n - 2 - i
      let xH := method.roll_back (expiry_times.getD j 0)
        (expiry_times.getD (j + 1) 0) s.1 s.2.1 s.2.2
      (xH.1, (underlying_payoffs.getD j (fun _ => [])) xH.1.reshape2, xH.2)

/-- Modelled from the claim wording (specification 4.1): process the
exercise dates from last to first down to the earliest scheduled date,
make one final roll_back(0, T_first, x, U, H) call, and return the value
obtained by linear interpolation of (x, H) at driving state 0. -/
def bermudan_npv_specModel (expiry_times : List ℚ)
    (underlying_payoffs : List Payoff) (method : Method) : ℚ :=
  let n := expiry_times.length
  let s := bermudanSpecState method expiry_times underlying_payoffs (n - 1)
  let xH := method.roll_back 0 (expiry_times.getD 0 0) s.1 s.2.1 s.2.2
  np_interp 0 xH.1.row0 xH.2

theorem bermudanLoop_eq_specState (method : Method) (expiry_times : List ℚ)
    (underlying_payoffs : List Payoff) {n : ℕ} (hn : n = expiry_times.length)
    (k : ℕ) (hk : k ≤ n - 1) :
    bermudanLoop method expiry_times underlying_payoffs n k
        (bermudanSpecState method expiry_times underlying_payoffs (n - 1 - k)) =
      bermudanSpecState method expiry_times underlying_payoffs (n - 1) := by
  subst hn
  induction k with
  | zero => simp [bermudanLoop]
  | succ k ih =>
    rw [bermudanLoop]
    have h1 : expiry_times.length - 1 - k =
        (expiry_times.length - 1 - (k + 1)) + 1 := by omega
    have h2 : expiry_times.length - 2 - (expiry_times.length - 1 - (k + 1)) =
        k := by omega
    have hbody : bermudanBody method expiry_times underlying_payoffs
        expiry_times.length (k + 1)
        (bermudanSpecState method expiry_times underlying_payoffs
          (expiry_times.length - 1 - (k + 1))) =
        bermudanSpecState method expiry_times underlying_payoffs
          (expiry_times.length - 1 - k) := by
      rw [h1, bermudanSpecState, bermudanBody, if_neg (by omega)]
      simp only [h2, Nat.add_sub_cancel]
    rw [hbody]
    exact ih (by omega)

/-- C1: for every non-empty, strictly increasing schedule of exercise
times with an equal-length list of payoffs, bermudan_option_npv performs
backward induction exactly as specified: at the last date x =
method.states(T_last) and H = 0 at every point of x; at each date
(processed last to first) it first evaluates the payoff on the current x
and then rolls back to the next earlier date; after the earliest
scheduled date it makes one final roll_back(0, T_first, x, U, H) call and
returns the linear interpolation of (x, H) at driving state 0 — that is,
it agrees with the specification-side recursion bermudan_npv_specModel. -/
theorem bermudan_option_npv_backward_induction (expiry_times : List ℚ)
    (underlying_payoffs : List Payoff) (method : Method)
    (hne : expiry_times ≠ [])
    (hsorted : expiry_times.Pairwise (· < ·))
    (hlen : underlying_payoffs.length = expiry_times.length) :
    bermudan_option_npv expiry_times underlying_payoffs method =
      bermudan_npv_specModel expiry_times underlying_payoffs method := by
  have hn : 1 ≤ expiry_times.length := by
    cases expiry_times with
    | nil => exact absurd rfl hne
    | cons a l => simp
  rw [bermudan_option_npv, bermudan_npv_specModel]
  have hloop : bermudanLoop method expiry_times underlying_payoffs
      expiry_times.length expiry_times.length (NpState.vec [], [], []) =
      bermudanSpecState method expiry_times underlying_payoffs
        (expiry_times.length - 1) := by
    have hsplit : expiry_times.length = (expiry_times.length - 1) + 1 := by omega
    rw [hsplit, bermudanLoop]
    have hfirst : bermudanBody method expiry_times underlying_payoffs
        ((expiry_times.length - 1) + 1) ((expiry_times.length - 1) + 1)
        (NpState.vec [], [], []) =
        bermudanSpecState method expiry_times underlying_payoffs 0 := by
      rw [bermudanBody, if_pos rfl, bermudanSpecState]
      simp only [Nat.add_sub_cancel, ← hsplit]
    rw [hfirst]
    have := bermudanLoop_eq_specState method expiry_times underlying_payoffs
      (n := (expiry_times.length - 1) + 1) (by omega) (expiry_times.length - 1)
      (by omega)
    simpa using this
  rw [hloop]

/-- Witness for C1: a concrete two-date schedule with a concrete method
and payoffs. -/
theorem bermudan_option_npv_backward_induction_witness :
    ([1, 2] : List ℚ) ≠ [] ∧ ([1, 2] : List ℚ).Pairwise (· < ·) ∧
      ([fun m => (m.headD []).map (· + 1), fun m => m.headD []] :
          List Payoff).length = ([1, 2] : List ℚ).length ∧
      bermudan_option_npv [1, 2]
          [fun m => (m.headD []).map (· + 1), fun m => m.headD []]
          ⟨fun t => NpState.vec [-t, t],
            fun T0 _ x U H => (NpState.vec [-T0 - 1, T0 + 1],
              addVec U (x.row0.map (fun _ => T0)) ++ H)⟩ =
        bermudan_npv_specModel [1, 2]
          [fun m => (m.headD []).map (· + 1), fun m => m.headD []]
          ⟨fun t => NpState.vec [-t, t],
            fun T0 _ x U H => (NpState.vec [-T0 - 1, T0 + 1],
              addVec U (x.row0.map (fun _ => T0)) ++ H)⟩ :=
  ⟨by decide, by norm_num, by decide,
    bermudan_option_npv_backward_induction _ _ _ (by decide) (by norm_num)
      (by decide)⟩

/-! ## AMC solver (src/methods/amc_solver.py) -/

/-- A controls strategy: map a state batch and an observation time to the
regression control matrix (StateVariableControls / CoterminalRateControls
duck-typed callables). -/
abbrev Controls := Mat → ℚ → Mat

/-- StateVariableControls: the driving state variable X[0], reshaped to a
one-row control matrix. -/
def stateVariableControls : Controls := fun X _ => [X.headD []]

/-- The pre-simulated Monte Carlo data consumed by the AMC solver:
observation times, the path tensor X (per time step a matrix of shape
(n_states, n_paths)), the path count, and the model numeraire
model.numeraire(X, t).  The numeraire is the analytic exp-based formula of
hull_white_model.py and enters the rollback only through its values, so it
is carried as a function field. -/
structure Simulation where
  times : List ℚ
  X : List Mat
  n_paths : ℕ
  numeraire : Mat → ℚ → Vec

/-- Python int(): truncation of a rational toward zero. -/
def pyInt (q : ℚ) : ℤ := if 0 ≤ q then ⌊q⌋ else ⌈q⌉

/-- AMC solver state after construction. -/
structure AmcSolver where
  simulation : Simulation
  max_polynomial_degree : ℕ
  minSampleIdx : ℕ
  controls : Controls

/-- AmcSolver.__init__: minSampleIdx = int(split_ratio * n_paths) splits
training data and simulation data. -/
def mkAmcSolver (simulation : Simulation) (max_polynomial_degree : ℕ)
    (splitR : ℚ) (controls : Controls) : AmcSolver :=
  { simulation := simulation
    max_polynomial_degree := max_polynomial_degree
    minSampleIdx := (pyInt (splitR * simulation.n_paths)).toNat
    controls := controls }

/-- AmcSolverOnlyExerciseRegression.__init__: the base-class constructor
is invoked without forwarding the controls argument, so the solver keeps
the default StateVariableControls and the argument is dropped. -/
def mkAmcSolverOnlyExerciseRegression (simulation : Simulation)
    (max_polynomial_degree : ℕ) (splitR : ℚ) (controls : Controls) :
    AmcSolver :=
  mkAmcSolver simulation max_polynomial_degree splitR stateVariableControls

/-- AmcSolver.nearest_index: index of the simulation time closest to t
(np.searchsorted plus a left-neighbour comparison). -/
def AmcSolver.nearest_index (S : AmcSolver) (t : ℚ) : ℕ :=
  let idx := searchsorted S.simulation.times t
  if 0 < idx ∧ (idx = S.simulation.times.length ∨
      |t - S.simulation.times.getD (idx - 1) 0| <
        |t - S.simulation.times.getD idx 0|) then
    idx - 1
  else
    idx

/-- AmcSolver.states: the simulated states at the nearest simulation
time. -/
def AmcSolver.states (S : AmcSolver) (expiryTime : ℚ) : Mat :=
  S.simulation.X.getD (S.nearest_index expiryTime) []

/-- The continuation values V0 computed inside AmcSolver.roll_back: when a
holdout split is configured and T0 > 0, regress the numeraire-discounted
max(U1, H1) of the first minSampleIdx paths on their T0 controls and
evaluate the fit at all paths; otherwise the unconditional
numeraire-discounted max path by path. -/
def AmcSolver.contValues (S : AmcSolver) (lstsq : Mat → Vec → Vec)
    (T0 T1 : ℚ) (x1 : Mat) (U1 H1 : Vec) : Vec :=
  let x0 := S.states T0
  let N0 := S.simulation.numeraire x0 T0
  let N1 := S.simulation.numeraire x1 T1
  if 0 < S.minSampleIdx ∧ 0 < T0 then
    let C := S.controls (x0.map (List.take S.minSampleIdx)) T0
    let O := mulVec
      (divVec (N0.take S.minSampleIdx) (N1.take S.minSampleIdx))
      (maxVec (U1.take S.minSampleIdx) (H1.take S.minSampleIdx))
    (mkRegression lstsq C O S.max_polynomial_degree).value (S.controls x0 T0)
  else
    mulVec (divVec N0 N1) (maxVec U1 H1)

/-- AmcSolver.roll_back: compute the continuation values; at T0 = 0 return
the single-point mean over the paths from sampleIdx on, where sampleIdx
falls back to 0 when the fit subset covers all paths. -/
def AmcSolver.roll_back (S : AmcSolver) (lstsq : Mat → Vec → Vec)
    (T0 T1 : ℚ) (x1 : Mat) (U1 H1 : Vec) : NpState × Vec :=
  let x0 := S.states T0
  let V0 := S.contValues lstsq T0 T1 x1 U1 H1
  if T0 = 0 then
    let sampleIdx :=
      if S.minSampleIdx < S.simulation.n_paths then S.minSampleIdx else 0
    (NpState.vec [0], [np_mean (V0.drop sampleIdx)])
  else
    (NpState.mat x0, V0)

/-- The per-path values V0 computed inside
AmcSolverOnlyExerciseRegression.roll_back: regress the exercise indicator
U1 - H1 of the first minSampleIdx paths on their T1 controls (when a
holdout split is configured and T0 > 0), evaluate the fit I at all paths,
and carry U1 where I > 0 and H1 where I ≤ 0, discounted by the numeraire
ratio. -/
def onlyExercise_values (S : AmcSolver) (lstsq : Mat → Vec → Vec)
    (T0 T1 : ℚ) (x1 : Mat) (U1 H1 : Vec) : Vec :=
  let x0 := S.states T0
  let N0 := S.simulation.numeraire x0 T0
  let N1 := S.simulation.numeraire x1 T1
  let I :=
    if 0 < S.minSampleIdx ∧ 0 < T0 then
      let C := S.controls (x1.map (List.take S.minSampleIdx)) T1
      let O := subVec (U1.take S.minSampleIdx) (H1.take S.minSampleIdx)
      (mkRegression lstsq C O S.max_polynomial_degree).value
        (S.controls x1 T1)
    else
      subVec U1 H1
  mulVec (divVec N0 N1)
    (zipWith3
      (fun i u h => (if 0 < i then 1 else 0) * u + (if i ≤ 0 then 1 else 0) * h)
      I U1 H1)

/-- AmcSolverOnlyExerciseRegression.roll_back. -/
def onlyExercise_roll_back (S : AmcSolver) (lstsq : Mat → Vec → Vec)
    (T0 T1 : ℚ) (x1 : Mat) (U1 H1 : Vec) : NpState × Vec :=
  let x0 := S.states T0
  let V0 := onlyExercise_values S lstsq T0 T1 x1 U1 H1
  if T0 = 0 then
    let sampleIdx :=
      if S.minSampleIdx < S.simulation.n_paths then S.minSampleIdx else 0
    (NpState.vec [0], [np_mean (V0.drop sampleIdx)])
  else
    (NpState.mat x0, V0)

/-! ### Elementwise access helpers -/

theorem length_zipWith3 (f : ℚ → ℚ → ℚ → ℚ) (a b c : Vec) :
    (zipWith3 f a b c).length = min a.length (min b.length c.length) := by
  induction a generalizing b c with
  | nil => simp [zipWith3]
  | cons x xs ih =>
    cases b with
    | nil => simp [zipWith3]
    | cons y ys =>
      cases c with
      | nil => simp [zipWith3]
      | cons z zs => simp [zipWith3, ih]; omega

theorem getD_zipWith (f : ℚ → ℚ → ℚ) (a b : Vec) (p : ℕ) (d : ℚ)
    (ha : p < a.length) (hb : p < b.length) :
    (List.zipWith f a b).getD p d = f (a.getD p d) (b.getD p d) := by
  have hl : p < (List.zipWith f a b).length := by
    rw [List.length_zipWith]; omega
  rw [List.getD_eq_getElem _ _ hl, List.getD_eq_getElem _ _ ha,
    List.getD_eq_getElem _ _ hb, List.getElem_zipWith]

theorem getD_zipWith3 (f : ℚ → ℚ → ℚ → ℚ) (a b c : Vec) (p : ℕ) (d : ℚ)
    (ha : p < a.length) (hb : p < b.length) (hc : p < c.length) :
    (zipWith3 f a b c).getD p d = f (a.getD p d) (b.getD p d) (c.getD p d) := by
  induction a generalizing b c p with
  | nil => simp at ha
  | cons x xs ih =>
    cases b with
    | nil => simp at hb
    | cons y ys =>
      cases c with
      | nil => simp at hc
      | cons z zs =>
        cases p with
        | zero => simp [zipWith3]
        | succ q =>
          simp only [zipWith3, List.getD_cons_succ]
          exact ih _ _ _ (by simpa using ha) (by simpa using hb)
            (by simpa using hc)

/-- C2: for every rollback step of AmcSolverOnlyExerciseRegression with
T0 > 0 and a configured holdout split, and for every path p, the returned
value H0[p] equals the numeraire ratio N0[p]/N1[p] times exactly one of
U1[p] or H1[p] — U1[p] when the fitted regression of U1 - H1 evaluated at
path p's T1 controls is strictly positive, H1[p] otherwise — never a
convex combination of the two. -/
theorem onlyExercise_discrete_selection (S : AmcSolver)
    (lstsq : Mat → Vec → Vec) (T0 T1 : ℚ) (x1 : Mat) (U1 H1 : Vec)
    (hm : 0 < S.minSampleIdx) (hT0 : 0 < T0) (p : ℕ)
    (hU : p < U1.length) (hH : p < H1.length)
    (hN0 : p < (S.simulation.numeraire (S.states T0) T0).length)
    (hN1 : p < (S.simulation.numeraire x1 T1).length)
    (hI : p < ((mkRegression lstsq
        (S.controls (x1.map (List.take S.minSampleIdx)) T1)
        (subVec (U1.take S.minSampleIdx) (H1.take S.minSampleIdx))
        S.max_polynomial_degree).value (S.controls x1 T1)).length) :
    (onlyExercise_roll_back S lstsq T0 T1 x1 U1 H1).2.getD p 0 =
      (S.simulation.numeraire (S.states T0) T0).getD p 0 /
          (S.simulation.numeraire x1 T1).getD p 0 *
        (if 0 < ((mkRegression lstsq
              (S.controls (x1.map (List.take S.minSampleIdx)) T1)
              (subVec (U1.take S.minSampleIdx) (H1.take S.minSampleIdx))
              S.max_polynomial_degree).value (S.controls x1 T1)).getD p 0
          then U1.getD p 0 else H1.getD p 0) := by
  rw [onlyExercise_roll_back]
  rw [if_neg (show ¬T0 = 0 by intro h; rw [h] at hT0; exact lt_irrefl 0 hT0)]
  rw [onlyExercise_values]
  rw [if_pos (show 0 < S.minSampleIdx ∧ 0 < T0 from ⟨hm, hT0⟩)]
  dsimp only []
  rw [mulVec, getD_zipWith _ _ _ _ _
      (by rw [divVec, List.length_zipWith]; omega)
      (by rw [length_zipWith3]; omega),
    divVec, getD_zipWith _ _ _ _ _ hN0 hN1,
    getD_zipWith3 _ _ _ _ _ _ hI hU hH]
  by_cases hsel :
    0 < ((mkRegression lstsq
        (S.controls (x1.map (List.take S.minSampleIdx)) T1)
        (subVec (U1.take S.minSampleIdx) (H1.take S.minSampleIdx))
        S.max_polynomial_degree).value (S.controls x1 T1)).getD p 0
  · rw [if_pos hsel, if_pos hsel, if_neg (not_le.mpr hsel)]; ring
  · rw [if_neg hsel, if_neg hsel, if_pos (not_lt.mp hsel)]; ring

/-- A small concrete two-path simulation used by the concrete
instantiations below. -/
def demoSimulation : Simulation :=
  { times := [0, 1]
    X := [[[0, 0], [0, 0]], [[0, 0], [0, 0]]]
    n_paths := 2
    numeraire := fun _ _ => [1, 1] }

/-- A concrete exercise-decision AMC solver over demoSimulation with a
one-path fit subset: the state reached by
AmcSolverOnlyExerciseRegression(demoSimulation, 2, 0.5, c) for any c,
spelled as a literal since int(0.5 * 2) = 1. -/
def demoExSolver : AmcSolver :=
  { simulation := demoSimulation
    max_polynomial_degree := 2
    minSampleIdx := 1
    controls := stateVariableControls }

/-- Witness for C2 on a concrete two-path solver. -/
theorem onlyExercise_discrete_selection_witness :
    0 < demoExSolver.minSampleIdx ∧ (0:ℚ) < 1 ∧
      (onlyExercise_roll_back demoExSolver (fun _ o => o) 1 1
          [[0, 0], [0, 0]] [5, 7] [6, 4]).2.getD 0 0 =
        (demoExSolver.simulation.numeraire (demoExSolver.states 1) 1).getD 0 0 /
            (demoExSolver.simulation.numeraire [[0, 0], [0, 0]] 1).getD 0 0 *
          (if 0 < ((mkRegression (fun _ o => o)
                (demoExSolver.controls
                  (([[0, 0], [0, 0]] : Mat).map
                    (List.take demoExSolver.minSampleIdx)) 1)
                (subVec (([5, 7] : Vec).take demoExSolver.minSampleIdx)
                  (([6, 4] : Vec).take demoExSolver.minSampleIdx))
                demoExSolver.max_polynomial_degree).value
              (demoExSolver.controls [[0, 0], [0, 0]] 1)).getD 0 0
            then ([5, 7] : Vec).getD 0 0 else ([6, 4] : Vec).getD 0 0) := by
  refine ⟨by decide, by norm_num, ?_⟩
  exact onlyExercise_discrete_selection demoExSolver (fun _ o => o) 1 1
    [[0, 0], [0, 0]] [5, 7] [6, 4] (by decide) (by norm_num) 0
    (by decide) (by decide) (by decide) (by decide) (by decide)

/-- C10: the solver constructed by AmcSolverOnlyExerciseRegression does
not use its controls argument: the constructed state keeps the default
StateVariableControls whatever is passed, so two such solvers differing
only in the controls argument are equal and produce identical roll_back
results on identical inputs. -/
theorem onlyExercise_controls_argument_ignored (simulation : Simulation)
    (max_polynomial_degree : ℕ) (splitR : ℚ) (c c' : Controls) :
    (mkAmcSolverOnlyExerciseRegression simulation max_polynomial_degree
        splitR c).controls = stateVariableControls ∧
      mkAmcSolverOnlyExerciseRegression simulation max_polynomial_degree
          splitR c =
        mkAmcSolverOnlyExerciseRegression simulation max_polynomial_degree
          splitR c' ∧
      ∀ (lstsq : Mat → Vec → Vec) (T0 T1 : ℚ) (x1 : Mat) (U1 H1 : Vec),
        onlyExercise_roll_back (mkAmcSolverOnlyExerciseRegression simulation
            max_polynomial_degree splitR c) lstsq T0 T1 x1 U1 H1 =
          onlyExercise_roll_back (mkAmcSolverOnlyExerciseRegression simulation
            max_polynomial_degree splitR c') lstsq T0 T1 x1 U1 H1 :=
  ⟨rfl, rfl, fun _ _ _ _ _ _ => rfl⟩

/-- C4: for every AmcSolver.roll_back call with T0 > 0 and a configured
holdout split, the regression of the numeraire-discounted values
(N0/N1) * max(U1, H1) is fitted using only the first minSampleIdx =
floor(split_ratio * n_paths) paths (the fit observations are exactly the
take of the full pathwise discounted-max vector) and the fitted polynomial
is evaluated at all paths' T0 controls to produce H0; when T0 > 0 but no
holdout split is configured the returned H0 is the unconditional
numeraire-discounted max path by path; when T0 == 0 the regression is
likewise skipped and the continuation values entering the terminal mean
are the unconditional numeraire-discounted max path by path. -/
theorem amcSolver_holdout_regression (S : AmcSolver)
    (lstsq : Mat → Vec → Vec) (T0 T1 : ℚ) (x1 : Mat) (U1 H1 : Vec) :
    (0 < S.minSampleIdx → 0 < T0 →
      S.roll_back lstsq T0 T1 x1 U1 H1 =
        (NpState.mat (S.states T0),
          (mkRegression lstsq
            (S.controls ((S.states T0).map (List.take S.minSampleIdx)) T0)
            ((mulVec
              (divVec (S.simulation.numeraire (S.states T0) T0)
                (S.simulation.numeraire x1 T1))
              (maxVec U1 H1)).take S.minSampleIdx)
            S.max_polynomial_degree).value (S.controls (S.states T0) T0))) ∧
      (S.minSampleIdx = 0 → 0 < T0 →
        S.roll_back lstsq T0 T1 x1 U1 H1 =
          (NpState.mat (S.states T0),
            mulVec
              (divVec (S.simulation.numeraire (S.states T0) T0)
                (S.simulation.numeraire x1 T1))
              (maxVec U1 H1))) ∧
      (T0 = 0 →
        S.contValues lstsq T0 T1 x1 U1 H1 =
          mulVec
            (divVec (S.simulation.numeraire (S.states T0) T0)
              (S.simulation.numeraire x1 T1))
            (maxVec U1 H1)) := by
  refine ⟨fun hm hT0 => ?_, fun hm hT0 => ?_, fun hT0 => ?_⟩
  · rw [AmcSolver.roll_back,
      if_neg (show ¬T0 = 0 by intro h; rw [h] at hT0; exact lt_irrefl 0 hT0),
      AmcSolver.contValues,
      if_pos (show 0 < S.minSampleIdx ∧ 0 < T0 from ⟨hm, hT0⟩)]
    simp only [mulVec, divVec, maxVec, List.take_zipWith]
  · rw [AmcSolver.roll_back,
      if_neg (show ¬T0 = 0 by intro h; rw [h] at hT0; exact lt_irrefl 0 hT0),
      AmcSolver.contValues, if_neg (by omega)]
  · rw [AmcSolver.contValues, if_neg (by rw [hT0]; intro h; exact lt_irrefl 0 h.2)]

/-- Witness for C4 on the concrete two-path solver with a one-path fit
subset. -/
theorem amcSolver_holdout_regression_witness :
    0 < demoExSolver.minSampleIdx ∧ (0:ℚ) < 1 ∧
      AmcSolver.roll_back demoExSolver (fun _ o => o) 1 1
          [[0, 0], [0, 0]] [1, 3] [0, 0] =
        (NpState.mat (demoExSolver.states 1),
          (mkRegression (fun _ o => o)
            (demoExSolver.controls
              ((demoExSolver.states 1).map (List.take demoExSolver.minSampleIdx)) 1)
            ((mulVec
              (divVec (demoExSolver.simulation.numeraire (demoExSolver.states 1) 1)
                (demoExSolver.simulation.numeraire [[0, 0], [0, 0]] 1))
              (maxVec [1, 3] [0, 0])).take demoExSolver.minSampleIdx)
            demoExSolver.max_polynomial_degree).value
            (demoExSolver.controls (demoExSolver.states 1) 1)) :=
  ⟨by decide, by norm_num,
    (amcSolver_holdout_regression demoExSolver (fun _ o => o) 1 1
        [[0, 0], [0, 0]] [1, 3] [0, 0]).1 (by decide) (by norm_num)⟩

/-- C5 counterexample: with split_ratio = 1 on a two-path simulation the
fit subset covers all paths (minSampleIdx = n_paths = 2); at T0 = 0 the
code falls back to averaging over all paths and returns the mean 2 of the
discounted values [1, 3], which is not the mean over the paths from index
minSampleIdx = 2 onward (the empty out-of-sample set, whose mean in this
embedding is the junk value 0): the fit subset is not excluded from the
terminal average. -/
theorem amc_terminal_mean_counterexample :
    (mkAmcSolver demoSimulation 2 1 stateVariableControls).minSampleIdx =
        demoSimulation.n_paths ∧
      (AmcSolver.roll_back (mkAmcSolver demoSimulation 2 1 stateVariableControls)
          (fun _ o => o) 0 1 [[0, 0], [0, 0]] [1, 3] [0, 0]).2 = [2] ∧
      [np_mean (List.drop
          (mkAmcSolver demoSimulation 2 1 stateVariableControls).minSampleIdx
          (AmcSolver.contValues (mkAmcSolver demoSimulation 2 1 stateVariableControls)
            (fun _ o => o) 0 1 [[0, 0], [0, 0]] [1, 3] [0, 0]))] = [0] ∧
      (2:ℚ) ≠ 0 := by
  have hmin : (mkAmcSolver demoSimulation 2 1 stateVariableControls).minSampleIdx = 2 := by
    norm_num [mkAmcSolver, pyInt, demoSimulation]
    decide
  have hV0 : AmcSolver.contValues (mkAmcSolver demoSimulation 2 1 stateVariableControls)
      (fun _ o => o) 0 1 [[0, 0], [0, 0]] [1, 3] [0, 0] = [1, 3] := by
    rw [AmcSolver.contValues, if_neg (by intro h; exact lt_irrefl 0 h.2)]
    norm_num [mkAmcSolver, demoSimulation, mulVec, divVec, maxVec]
  refine ⟨by rw [hmin]; rfl, ?_, ?_, by norm_num⟩
  · rw [AmcSolver.roll_back, if_pos rfl]
    rw [hV0, hmin]
    norm_num [mkAmcSolver, demoSimulation, np_mean]
  · rw [hV0, hmin]
    norm_num [np_mean]

/-- C5 amended: for every roll_back call with T0 == 0, both AMC variants
return a pair whose state component is the single value 0 and whose value
component is the single mean of the per-path discounted values over the
paths from index minSampleIdx onward whenever minSampleIdx < n_paths; when
the fit subset covers all paths (minSampleIdx >= n_paths) the guard resets
the start index to 0 and the mean is taken over all paths instead. -/
theorem amc_terminal_mean_guarded (S : AmcSolver) (lstsq : Mat → Vec → Vec)
    (T1 : ℚ) (x1 : Mat) (U1 H1 : Vec) :
    (S.minSampleIdx < S.simulation.n_paths →
      S.roll_back lstsq 0 T1 x1 U1 H1 =
        (NpState.vec [0],
          [np_mean ((S.contValues lstsq 0 T1 x1 U1 H1).drop S.minSampleIdx)]) ∧
      onlyExercise_roll_back S lstsq 0 T1 x1 U1 H1 =
        (NpState.vec [0],
          [np_mean ((onlyExercise_values S lstsq 0 T1 x1 U1 H1).drop
            S.minSampleIdx)])) ∧
    (S.simulation.n_paths ≤ S.minSampleIdx →
      S.roll_back lstsq 0 T1 x1 U1 H1 =
        (NpState.vec [0], [np_mean (S.contValues lstsq 0 T1 x1 U1 H1)]) ∧
      onlyExercise_roll_back S lstsq 0 T1 x1 U1 H1 =
        (NpState.vec [0], [np_mean (onlyExercise_values S lstsq 0 T1 x1 U1 H1)])) := by
  constructor
  · intro hlt
    constructor
    · rw [AmcSolver.roll_back, if_pos rfl, if_pos hlt]
    · rw [onlyExercise_roll_back, if_pos rfl, if_pos hlt]
  · intro hge
    constructor
    · rw [AmcSolver.roll_back, if_pos rfl, if_neg (by omega)]
      exact rfl
    · rw [onlyExercise_roll_back, if_pos rfl, if_neg (by omega)]
      exact rfl

/-- Witness for C5 (amended) on the concrete two-path solver with a
one-path fit subset. -/
theorem amc_terminal_mean_guarded_witness :
    demoExSolver.minSampleIdx < demoExSolver.simulation.n_paths ∧
      (AmcSolver.roll_back demoExSolver (fun _ o => o) 0 1
          [[0, 0], [0, 0]] [1, 3] [0, 0] =
        (NpState.vec [0],
          [np_mean ((demoExSolver.contValues (fun _ o => o) 0 1
            [[0, 0], [0, 0]] [1, 3] [0, 0]).drop demoExSolver.minSampleIdx)]) ∧
      onlyExercise_roll_back demoExSolver (fun _ o => o) 0 1
          [[0, 0], [0, 0]] [1, 3] [0, 0] =
        (NpState.vec [0],
          [np_mean ((onlyExercise_values demoExSolver (fun _ o => o) 0 1
            [[0, 0], [0, 0]] [1, 3] [0, 0]).drop demoExSolver.minSampleIdx)])) :=
  ⟨by decide,
    (amc_terminal_mean_guarded demoExSolver (fun _ o => o) 1
      [[0, 0], [0, 0]] [1, 3] [0, 0]).1 (by decide)⟩

/-! ## Break-even decorator (src/methods/density_integrations.py) -/

/-- Positional selection v[np.where(x1 < t)]: the entries of v at the
positions where the aligned grid x1 lies strictly below t. -/
def selectBelow (x1 v : Vec) (t : ℚ) : Vec :=
  ((x1.zip v).filter (fun p => p.1 < t)).map Prod.snd

/-- Positional selection v[np.where(x1 > t)]. -/
def selectAbove (x1 v : Vec) (t : ℚ) : Vec :=
  ((x1.zip v).filter (fun p => t < p.1)).map Prod.snd

/-- DensityIntegrationWithBreakEven.roll_back.  The scipy cubic-spline
root finder (roots of the interpolant of U1 - H1 over x1, restricted to
the grid by extrapolate=False) and the spline evaluator
CubicSpline(x1, U1)(xStar) are external and passed as function arguments;
the wrapped quadrature method is the function argument method. -/
def breakEven_roll_back (method : ℚ → ℚ → Vec → Vec → Vec → Vec × Vec)
    (splineRoots : Vec → Vec → Vec) (splineEval : Vec → Vec → ℚ → ℚ)
    (T0 T1 : ℚ) (x1 U1 H1 : Vec) : Vec × Vec :=
  let roots := splineRoots x1 (subVec U1 H1)
  match roots with
  | [] => method T0 T1 x1 U1 H1
  | xStar :: _ =>
      let VStar := splineEval x1 U1 xStar
      let lV := method T0 T1 (selectBelow x1 x1 xStar ++ [xStar])
        (selectBelow x1 U1 xStar ++ [VStar]) (selectBelow x1 H1 xStar ++ [VStar])
      let uV := method T0 T1 (xStar :: selectAbove x1 x1 xStar)
        (VStar :: selectAbove x1 U1 xStar) (VStar :: selectAbove x1 H1 xStar)
      (uV.1, addVec lV.2 uV.2)

/-- Modelled from the claim wording (specification 4.2, break-even
decorator): with no root inside the grid, delegate unchanged; with a first
root xStar, evaluate the wrapped method on the sub-grid of x1 below xStar
and on the sub-grid above xStar, injecting xStar as a shared boundary
point at which both U1 and H1 take the spline value V(xStar), and return
the wrapped method's states together with the pointwise sum of the two
partial continuation values. -/
def breakEven_roll_back_specModel (method : ℚ → ℚ → Vec → Vec → Vec → Vec × Vec)
    (splineRoots : Vec → Vec → Vec) (splineEval : Vec → Vec → ℚ → ℚ)
    (T0 T1 : ℚ) (x1 U1 H1 : Vec) : Vec × Vec :=
  match splineRoots x1 (subVec U1 H1) with
  | [] => method T0 T1 x1 U1 H1
  | xStar :: _ =>
      let VStar := splineEval x1 U1 xStar
      let lV := method T0 T1 (x1.filter (fun v => v < xStar) ++ [xStar])
        (selectBelow x1 U1 xStar ++ [VStar]) (selectBelow x1 H1 xStar ++ [VStar])
      let uV := method T0 T1 (xStar :: x1.filter (fun v => xStar < v))
        (VStar :: selectAbove x1 U1 xStar) (VStar :: selectAbove x1 H1 xStar)
      (uV.1, addVec lV.2 uV.2)

theorem selectBelow_self (x1 : Vec) (t : ℚ) :
    selectBelow x1 x1 t = x1.filter (fun v => v < t) := by
  induction x1 with
  | nil => rfl
  | cons a as ih =>
    simp only [selectBelow] at ih
    by_cases h : a < t <;>
      simp [selectBelow, List.zip_cons_cons, List.filter_cons, h, ih]

theorem selectAbove_self (x1 : Vec) (t : ℚ) :
    selectAbove x1 x1 t = x1.filter (fun v => t < v) := by
  induction x1 with
  | nil => rfl
  | cons a as ih =>
    simp only [selectAbove] at ih
    by_cases h : t < a <;>
      simp [selectAbove, List.zip_cons_cons, List.filter_cons, h, ih]

/-- C3: for every call to roll_back of the break-even decorator: if the
spline interpolant of U1 - H1 over x1 has no root inside the grid, the
decorator returns exactly the same (x0, H0) pair as the wrapped method
applied to the unchanged inputs; if a root xStar exists, it returns
(x0, lV0 + uV0), the pointwise sum of the wrapped method's roll_back
applied to the sub-grid below xStar and to the sub-grid above xStar, each
with xStar injected as a shared boundary point at which U1 and H1 are both
set to the spline value V(xStar) — the source code equals the
specification-side model verbatim. -/
theorem breakEven_roll_back_refines_spec
    (method : ℚ → ℚ → Vec → Vec → Vec → Vec × Vec)
    (splineRoots : Vec → Vec → Vec) (splineEval : Vec → Vec → ℚ → ℚ)
    (T0 T1 : ℚ) (x1 U1 H1 : Vec) :
    breakEven_roll_back method splineRoots splineEval T0 T1 x1 U1 H1 =
      breakEven_roll_back_specModel method splineRoots splineEval T0 T1 x1 U1 H1 := by
  rw [breakEven_roll_back, breakEven_roll_back_specModel]
  cases hr : splineRoots x1 (subVec U1 H1) with
  | nil => rfl
  | cons xStar rest =>
    dsimp only []
    rw [selectBelow_self, selectAbove_self]

/-! ## Theta-method stepper (src/methods/theta_method.py)

The tridiagonal matrix diag[a, b, c] is carried as its three coefficient
sequences (a the subdiagonal, b the diagonal, c the superdiagonal) as
functions of the row index, together with the dimension n.  The in-place
LU decomposition, forward substitution and backward substitution of
solve_tridiagonalsystem are modelled as explicit recursively defined
sequences: luDiag is the diagonal of U after the elimination loop (the
mutated b array), a i / luDiag a b c i is the mutated a array, forwardZ is
the z array and backSub j is the solution entry at row n - 1 - j (the
backward loop runs from the last row down). -/

/-- The LU pivot sequence: b[0], and b[i] -= c[i-1] * (a[i-1] / b[i-1])
after the elimination of row i. -/
def luDiag (a b c : ℕ → ℚ) : ℕ → ℚ
  | 0 => b 0
  | i + 1 => b (i + 1) - c i * (a i / luDiag a b c i)

/-- Forward substitution: z[0] = y[0], z[i] = y[i] - a[i-1] * z[i-1] with
the mutated a array. -/
def forwardZ (a b c y : ℕ → ℚ) : ℕ → ℚ
  | 0 => y 0
  | i + 1 => y (i + 1) - a i / luDiag a b c i * forwardZ a b c y i

/-- Backward substitution, j steps above the last row: the solution entry
at row n - 1 - j. -/
def backSub (n : ℕ) (a b c y : ℕ → ℚ) : ℕ → ℚ
  | 0 => forwardZ a b c y (n - 1) / luDiag a b c (n - 1)
  | j + 1 =>
      (forwardZ a b c y (n - 2 - j) - c (n - 2 - j) * backSub n a b c y j) /
        luDiag a b c (n - 2 - j)

/-- solve_tridiagonalsystem from theta_method.py: the solution of the
tridiagonal system diag[a, b, c] x = y by non-pivoted LU decomposition,
forward and backward substitution; entry i of the overwritten y array. -/
def solve_tridiagonalsystem (n : ℕ) (a b c y : ℕ → ℚ) (i : ℕ) : ℚ :=
  backSub n a b c y (n - 1 - i)

/-- Row i of the product diag[a, b, c] * v for an n-dimensional
tridiagonal matrix (scipy diags([a, b, c], [-1, 0, 1])). -/
def triMulRow (n : ℕ) (a b c v : ℕ → ℚ) (i : ℕ) : ℚ :=
  (if i = 0 then 0 else a (i - 1) * v (i - 1)) + b i * v i +
    (if i + 1 < n then c i * v (i + 1) else 0)

/-- theta_step from theta_method.py: b = (I - stepSize*(1-theta)*M) * RHS;
for theta = 0 return b (explicit Euler, no linear solve), otherwise solve
(I + stepSize*theta*M) v = b with the tridiagonal solver. -/
def theta_step (n : ℕ) (array_L array_C array_U array_RHS : ℕ → ℚ)
    (stepSize theta : ℚ) : ℕ → ℚ :=
  let b := fun i =>
    array_RHS i -
      stepSize * (1 - theta) * triMulRow n array_L array_C array_U array_RHS i
  if theta = 0 then b
  else
    solve_tridiagonalsystem n (fun i => stepSize * theta * array_L i)
      (fun i => 1 + stepSize * theta * array_C i)
      (fun i => stepSize * theta * array_U i) b

theorem solve_last (n : ℕ) (a b c y : ℕ → ℚ) (i : ℕ) (hi : i + 1 = n) :
    solve_tridiagonalsystem n a b c y i =
      forwardZ a b c y i / luDiag a b c i := by
  rw [solve_tridiagonalsystem]
  have h : n - 1 - i = 0 := by omega
  rw [h, backSub]
  have h2 : n - 1 = i := by omega
  rw [h2]

theorem solve_mid (n : ℕ) (a b c y : ℕ → ℚ) (i : ℕ) (hi : i + 1 < n) :
    solve_tridiagonalsystem n a b c y i =
      (forwardZ a b c y i - c i * solve_tridiagonalsystem n a b c y (i + 1)) /
        luDiag a b c i := by
  rw [solve_tridiagonalsystem, solve_tridiagonalsystem]
  have h1 : n - 1 - i = (n - 2 - i) + 1 := by omega
  rw [h1, backSub]
  have h2 : n - 2 - (n - 2 - i) = i := by omega
  rw [h2]
  have h3 : n - 2 - i = n - 1 - (i + 1) := by omega
  rw [h3]

theorem solve_tridiagonalsystem_correct (n : ℕ) (hn : 1 ≤ n)
    (a b c y : ℕ → ℚ) (hpiv : ∀ i < n, luDiag a b c i ≠ 0) :
    ∀ i < n,
      triMulRow n a b c (solve_tridiagonalsystem n a b c y) i = y i := by
  intro i hi
  by_cases hi0 : i = 0
  · subst hi0
    have hD0 : luDiag a b c 0 = b 0 := rfl
    have hZ0 : forwardZ a b c y 0 = y 0 := rfl
    have hDne : luDiag a b c 0 ≠ 0 := hpiv 0 (by omega)
    by_cases hn1 : 1 < n
    · have hX0 : luDiag a b c 0 * solve_tridiagonalsystem n a b c y 0 =
          forwardZ a b c y 0 - c 0 * solve_tridiagonalsystem n a b c y 1 := by
        rw [solve_mid n a b c y 0 (by omega), mul_comm,
          div_mul_cancel₀ _ hDne]
      rw [hD0, hZ0] at hX0
      rw [triMulRow, if_pos rfl, if_pos (by omega)]
      linear_combination hX0
    · have hn' : 0 + 1 = n := by omega
      have hX0 : luDiag a b c 0 * solve_tridiagonalsystem n a b c y 0 =
          forwardZ a b c y 0 := by
        rw [solve_last n a b c y 0 hn', mul_comm, div_mul_cancel₀ _ hDne]
      rw [hD0, hZ0] at hX0
      rw [triMulRow, if_pos rfl, if_neg (by omega)]
      linear_combination hX0
  · obtain ⟨j, rfl⟩ : ∃ j, i = j + 1 := ⟨i - 1, by omega⟩
    have hDj : luDiag a b c j ≠ 0 := hpiv j (by omega)
    have hDj1 : luDiag a b c (j + 1) ≠ 0 := hpiv (j + 1) hi
    have ha : a j / luDiag a b c j * luDiag a b c j = a j :=
      div_mul_cancel₀ _ hDj
    have hD1 : luDiag a b c (j + 1) =
        b (j + 1) - c j * (a j / luDiag a b c j) := rfl
    have hZ : forwardZ a b c y (j + 1) =
        y (j + 1) - a j / luDiag a b c j * forwardZ a b c y j := rfl
    have hXj : luDiag a b c j * solve_tridiagonalsystem n a b c y j =
        forwardZ a b c y j - c j * solve_tridiagonalsystem n a b c y (j + 1) := by
      rw [solve_mid n a b c y j (by omega), mul_comm, div_mul_cancel₀ _ hDj]
    rw [triMulRow, if_neg (by omega)]
    simp only [Nat.add_sub_cancel]
    by_cases hlast : j + 1 + 1 < n
    · have hXj1 : luDiag a b c (j + 1) *
          solve_tridiagonalsystem n a b c y (j + 1) =
          forwardZ a b c y (j + 1) -
            c (j + 1) * solve_tridiagonalsystem n a b c y (j + 2) := by
        rw [solve_mid n a b c y (j + 1) (by omega), mul_comm,
          div_mul_cancel₀ _ hDj1]
      rw [if_pos hlast]
      linear_combination (-(solve_tridiagonalsystem n a b c y j)) * ha +
        (a j / luDiag a b c j) * hXj +
        (-(solve_tridiagonalsystem n a b c y (j + 1))) * hD1 + hXj1 + hZ
    · have hXj1 : luDiag a b c (j + 1) *
          solve_tridiagonalsystem n a b c y (j + 1) =
          forwardZ a b c y (j + 1) := by
        rw [solve_last n a b c y (j + 1) (by omega), mul_comm,
          div_mul_cancel₀ _ hDj1]
      rw [if_neg hlast]
      linear_combination (-(solve_tridiagonalsystem n a b c y j)) * ha +
        (a j / luDiag a b c j) * hXj +
        (-(solve_tridiagonalsystem n a b c y (j + 1))) * hD1 + hXj1 + hZ

/-- C7: for every tridiagonal operator M (lower, diagonal, upper
coefficient sequences), step size dt and right-hand-side vector v_old,
theta_step with theta = 0 returns exactly (I - dt*M) * v_old — the
explicit branch, no linear solve is invoked — and for theta > 0, provided
the non-pivoted LU decomposition of I + theta*dt*M exists (all pivots of
the elimination are nonzero), the returned vector v_new satisfies
(I + theta*dt*M) * v_new = (I - (1-theta)*dt*M) * v_old row by row. -/
theorem theta_step_theta_scheme (n : ℕ)
    (array_L array_C array_U array_RHS : ℕ → ℚ) (stepSize theta : ℚ) :
    (theta_step n array_L array_C array_U array_RHS stepSize 0 = fun i =>
      array_RHS i -
        stepSize * triMulRow n array_L array_C array_U array_RHS i) ∧
    (0 < theta → 1 ≤ n →
      (∀ i < n, luDiag (fun k => stepSize * theta * array_L k)
          (fun k => 1 + stepSize * theta * array_C k)
          (fun k => stepSize * theta * array_U k) i ≠ 0) →
      ∀ i < n,
        triMulRow n (fun k => stepSize * theta * array_L k)
            (fun k => 1 + stepSize * theta * array_C k)
            (fun k => stepSize * theta * array_U k)
            (theta_step n array_L array_C array_U array_RHS stepSize theta) i =
          array_RHS i - stepSize * (1 - theta) *
            triMulRow n array_L array_C array_U array_RHS i) := by
  constructor
  · funext i
    rw [theta_step, if_pos rfl]
    ring
  · intro hth hn hpiv i hi
    rw [theta_step, if_neg (ne_of_gt hth)]
    exact solve_tridiagonalsystem_correct n hn _ _ _ _ hpiv i hi

/-- Witness for C7 at n = 2, unit coefficients, stepSize = theta = 1. -/
theorem theta_step_theta_scheme_witness :
    (0:ℚ) < 1 ∧ 1 ≤ 2 ∧
      (∀ i < 2, luDiag (fun k => (1:ℚ) * 1 * (fun _ => (1:ℚ)) k)
          (fun k => 1 + (1:ℚ) * 1 * (fun _ => (1:ℚ)) k)
          (fun k => (1:ℚ) * 1 * (fun _ => (1:ℚ)) k) i ≠ 0) ∧
      triMulRow 2 (fun k => (1:ℚ) * 1 * (fun _ => (1:ℚ)) k)
          (fun k => 1 + (1:ℚ) * 1 * (fun _ => (1:ℚ)) k)
          (fun k => (1:ℚ) * 1 * (fun _ => (1:ℚ)) k)
          (theta_step 2 (fun _ => (1:ℚ)) (fun _ => (1:ℚ)) (fun _ => (1:ℚ))
            (fun _ => (1:ℚ)) 1 1) 0 =
        (fun _ => (1:ℚ)) 0 - 1 * (1 - 1) *
          triMulRow 2 (fun _ => (1:ℚ)) (fun _ => (1:ℚ)) (fun _ => (1:ℚ))
            (fun _ => (1:ℚ)) 0 := by
  have hpiv : ∀ i < 2, luDiag (fun k => (1:ℚ) * 1 * (fun _ => (1:ℚ)) k)
      (fun k => 1 + (1:ℚ) * 1 * (fun _ => (1:ℚ)) k)
      (fun k => (1:ℚ) * 1 * (fun _ => (1:ℚ)) k) i ≠ 0 := by
    intro i hilt
    interval_cases i <;> norm_num [luDiag]
  exact ⟨by norm_num, by norm_num, hpiv,
    (theta_step_theta_scheme 2 (fun _ => (1:ℚ)) (fun _ => (1:ℚ))
      (fun _ => (1:ℚ)) (fun _ => (1:ℚ)) 1 1).2 (by norm_num) (by norm_num)
      hpiv 0 (by norm_num)⟩

/-! ## Hull-White analytic formulas (src/hull_white_model.py, src/helpers.py)

These formulas are real-valued (exp, log, sqrt, the normal CDF), so this
part of the embedding lives over ℝ.  The scipy normal CDF norm.cdf is
external and passed as the function parameter Phi; the scipy root finder
brentq is external and passed as a function parameter constrained by its
documented bracketing contract. -/

noncomputable section

/-- np.searchsorted (side left) over a real grid. -/
def searchsortedReal (xs : List ℝ) (t : ℝ) : ℕ :=
  (xs.takeWhile (fun x => x < t)).length

/-- Hull-White model state: discount curve (the yield_curve collaborator,
reduced to its discount method), mean reversion and the piecewise-constant
volatility term structure. -/
structure HullWhiteModel where
  yield_curve : ℝ → ℝ
  mean_reversion : ℝ
  volatility_times : List ℝ
  volatility_values : List ℝ

/-- Mean-reversion decay kernel G(t,T). -/
def HullWhiteModel.G (M : HullWhiteModel) (t T : ℝ) : ℝ :=
  (1 - Real.exp (-M.mean_reversion * (T - t))) / M.mean_reversion

/-- Derivative kernel G'(t,T). -/
def HullWhiteModel.G_prime (M : HullWhiteModel) (t T : ℝ) : ℝ :=
  Real.exp (-M.mean_reversion * (T - t))

/-- The pre-calculated y_ grid values of the constructor: forward
recursion over the volatility time grid starting from t0 = 0, y0 = 0. -/
def HullWhiteModel.y_ (M : HullWhiteModel) : ℕ → ℝ
  | 0 =>
      (M.G_prime 0 (M.volatility_times.getD 0 0)) ^ 2 * 0 +
        (M.volatility_values.getD 0 0) ^ 2 *
          (1 - Real.exp (-2 * M.mean_reversion *
            (M.volatility_times.getD 0 0 - 0))) /
          (2 * M.mean_reversion)
  | i + 1 =>
      (M.G_prime (M.volatility_times.getD i 0)
          (M.volatility_times.getD (i + 1) 0)) ^ 2 * M.y_ i +
        (M.volatility_values.getD (i + 1) 0) ^ 2 *
          (1 - Real.exp (-2 * M.mean_reversion *
            (M.volatility_times.getD (i + 1) 0 - M.volatility_times.getD i 0))) /
          (2 * M.mean_reversion)

/-- Auxiliary variance accumulator y(t): locate the segment with
searchsorted, restart from the previous grid value and extrapolate flat
beyond the last volatility knot. -/
def HullWhiteModel.y (M : HullWhiteModel) (t : ℝ) : ℝ :=
  let idx := searchsortedReal M.volatility_times t
  let t0 := if idx = 0 then 0 else M.volatility_times.getD (idx - 1) 0
  let y0 := if idx = 0 then 0 else M.y_ (idx - 1)
  let s1 := M.volatility_values.getD
    (min idx (M.volatility_values.length - 1)) 0
  (M.G_prime t0 t) ^ 2 * y0 +
    s1 ^ 2 * (1 - Real.exp (-2 * M.mean_reversion * (t - t0))) /
      (2 * M.mean_reversion)

/-- Zero coupon bond formula P(t, x, T). -/
def HullWhiteModel.zero_bond (M : HullWhiteModel) (t xt T : ℝ) : ℝ :=
  M.yield_curve T / M.yield_curve t *
    Real.exp (-(M.G t T) * xt - 0.5 * (M.G t T) ^ 2 * M.y t)

/-- black_normalised from helpers.py; Phi is the scipy normal CDF. -/
def black_normalised (Phi : ℝ → ℝ) (moneyness stdDev callOrPut : ℝ) : ℝ :=
  let d1 := Real.log moneyness / stdDev + stdDev / 2
  let d2 := d1 - stdDev
  callOrPut * (moneyness * Phi (callOrPut * d1) - Phi (callOrPut * d2))

/-- black from helpers.py: intrinsic value below the vol cutoff, else the
normalised Black formula. -/
def black (Phi : ℝ → ℝ) (strike forward sigma T callOrPut : ℝ) : ℝ :=
  let nu := sigma * Real.sqrt T
  if nu < 1e-12 then max (callOrPut * (forward - strike)) 0
  else strike * black_normalised Phi (forward / strike) nu callOrPut

/-- Zero coupon bond option formula of hull_white_model.py. -/
def HullWhiteModel.zero_bond_option (M : HullWhiteModel) (Phi : ℝ → ℝ)
    (expiry_time maturityTime strikePrice call_or_put : ℝ) : ℝ :=
  let nu2 := (M.G expiry_time maturityTime) ^ 2 * M.y expiry_time
  let P0 := M.yield_curve expiry_time
  let P1 := M.yield_curve maturityTime
  P0 * black Phi strikePrice (P1 / P0) (Real.sqrt nu2) 1 call_or_put

theorem max_sub_max_neg (x : ℝ) : max (1 * x) 0 - max (-1 * x) 0 = x := by
  rcases le_total x 0 with h | h
  · rw [max_eq_right (by nlinarith), max_eq_left (by nlinarith)]; ring
  · rw [max_eq_left (by nlinarith), max_eq_right (by nlinarith)]; ring

theorem black_normalised_parity (Phi : ℝ → ℝ)
    (hPhi : ∀ x, Phi x + Phi (-x) = 1) (m nu : ℝ) :
    black_normalised Phi m nu 1 - black_normalised Phi m nu (-1) = m - 1 := by
  rw [black_normalised, black_normalised]
  simp only [one_mul, neg_one_mul]
  have h1 := hPhi (Real.log m / nu + nu / 2)
  have h2 := hPhi (Real.log m / nu + nu / 2 - nu)
  linear_combination m * h1 - h2

/-- C8: for every expiry T_E > 0, maturity T_M > T_E, and positive strike
price K, with positive discount factors and positive bond-price
volatility, the analytic zero-coupon bond option formulas satisfy put/call
parity: zero_bond_option(call) - zero_bond_option(put) =
P(0,T_M) - K * P(0,T_E), where Phi is any normal CDF (any function with
Phi(x) + Phi(-x) = 1). -/
theorem zero_bond_option_put_call_parity (M : HullWhiteModel) (Phi : ℝ → ℝ)
    (T_E T_M K : ℝ) (hTE : 0 < T_E) (hTM : T_E < T_M)
    (hP0 : 0 < M.yield_curve T_E) (hP1 : 0 < M.yield_curve T_M) (hK : 0 < K)
    (hvol : 0 < Real.sqrt ((M.G T_E T_M) ^ 2 * M.y T_E))
    (hPhi : ∀ x, Phi x + Phi (-x) = 1) :
    M.zero_bond_option Phi T_E T_M K 1 -
        M.zero_bond_option Phi T_E T_M K (-1) =
      M.yield_curve T_M - K * M.yield_curve T_E := by
  have hP0' : M.yield_curve T_E ≠ 0 := ne_of_gt hP0
  have hK' : K ≠ 0 := ne_of_gt hK
  rw [HullWhiteModel.zero_bond_option, HullWhiteModel.zero_bond_option,
    black, black]
  by_cases hb :
    Real.sqrt ((M.G T_E T_M) ^ 2 * M.y T_E) * Real.sqrt 1 < 1e-12
  · rw [if_pos hb, if_pos hb, ← mul_sub, max_sub_max_neg]
    field_simp
    ring
  · rw [if_neg hb, if_neg hb]
    have hbn := black_normalised_parity Phi hPhi
      (M.yield_curve T_M / M.yield_curve T_E / K)
      (Real.sqrt ((M.G T_E T_M) ^ 2 * M.y T_E) * Real.sqrt 1)
    calc
      M.yield_curve T_E * (K * black_normalised Phi
            (M.yield_curve T_M / M.yield_curve T_E / K)
            (Real.sqrt ((M.G T_E T_M) ^ 2 * M.y T_E) * Real.sqrt 1) 1) -
          M.yield_curve T_E * (K * black_normalised Phi
            (M.yield_curve T_M / M.yield_curve T_E / K)
            (Real.sqrt ((M.G T_E T_M) ^ 2 * M.y T_E) * Real.sqrt 1) (-1)) =
          M.yield_curve T_E * K *
            (black_normalised Phi
              (M.yield_curve T_M / M.yield_curve T_E / K)
              (Real.sqrt ((M.G T_E T_M) ^ 2 * M.y T_E) * Real.sqrt 1) 1 -
            black_normalised Phi
              (M.yield_curve T_M / M.yield_curve T_E / K)
              (Real.sqrt ((M.G T_E T_M) ^ 2 * M.y T_E) * Real.sqrt 1) (-1)) := by
        ring
      _ = M.yield_curve T_E * K *
            (M.yield_curve T_M / M.yield_curve T_E / K - 1) := by rw [hbn]
      _ = M.yield_curve T_M - K * M.yield_curve T_E := by
        field_simp
        ring

/-- A concrete Hull-White model: flat unit discount curve, unit mean
reversion, a single unit volatility knot at t = 1. -/
def demoHW : HullWhiteModel :=
  { yield_curve := fun _ => 1
    mean_reversion := 1
    volatility_times := [1]
    volatility_values := [1] }

/-- A concrete symmetric stand-in for the normal CDF. -/
def demoPhi : ℝ → ℝ := fun _ => 1 / 2

theorem demoHW_y_pos : 0 < demoHW.y 1 := by
  have hidx : searchsortedReal demoHW.volatility_times 1 = 0 := by
    norm_num [demoHW, searchsortedReal]
  rw [HullWhiteModel.y, hidx]
  norm_num [demoHW, HullWhiteModel.G_prime]

theorem demoHW_G_pos : 0 < demoHW.G 1 2 := by
  rw [HullWhiteModel.G]
  norm_num [demoHW]

/-- Witness for C8 on the concrete model demoHW with K = 1. -/
theorem zero_bond_option_put_call_parity_witness :
    ((0:ℝ) < 1 ∧ (1:ℝ) < 2 ∧ 0 < demoHW.yield_curve 1 ∧
        0 < demoHW.yield_curve 2 ∧
        0 < Real.sqrt ((demoHW.G 1 2) ^ 2 * demoHW.y 1) ∧
        (∀ x, demoPhi x + demoPhi (-x) = 1)) ∧
      demoHW.zero_bond_option demoPhi 1 2 1 1 -
          demoHW.zero_bond_option demoPhi 1 2 1 (-1) =
        demoHW.yield_curve 2 - 1 * demoHW.yield_curve 1 := by
  have hvol : 0 < Real.sqrt ((demoHW.G 1 2) ^ 2 * demoHW.y 1) :=
    Real.sqrt_pos.mpr (mul_pos (pow_pos demoHW_G_pos 2) demoHW_y_pos)
  have hPhi : ∀ x, demoPhi x + demoPhi (-x) = 1 := fun x => by
    norm_num [demoPhi]
  refine ⟨⟨by norm_num, by norm_num, by norm_num [demoHW],
    by norm_num [demoHW], hvol, hPhi⟩, ?_⟩
  exact zero_bond_option_put_call_parity demoHW demoPhi 1 2 1 (by norm_num)
    (by norm_num) (by norm_num [demoHW]) (by norm_num [demoHW])
    (by norm_num) hvol hPhi

/-! ### Coupon bond option and root-finding failure (C9) -/

/-- The Jamshidian objective of coupon_bond_option: the forward coupon
bond price at factor value x minus the strike. -/
def jamshidianObjective (M : HullWhiteModel) (expiry_time : ℝ)
    (pay_times cash_flows : List ℝ) (strike_price : ℝ) : ℝ → ℝ :=
  fun x =>
    ((pay_times.zip cash_flows).map
      (fun p => p.2 * M.zero_bond expiry_time x p.1)).sum - strike_price

/-- coupon_bond_option from hull_white_model.py, with scipy brentq passed
as a fallible external root finder: root-find the factor value at which
the coupon bond price equals the strike on the fixed bracket [-1, 1], then
sum the zero-bond options struck at the corresponding zero-bond prices.
A brentq failure (no sign change on the bracket) propagates. -/
def HullWhiteModel.coupon_bond_option (M : HullWhiteModel) (Phi : ℝ → ℝ)
    (brentq : (ℝ → ℝ) → ℝ → ℝ → Except String ℝ)
    (expiry_time : ℝ) (pay_times cash_flows : List ℝ)
    (strike_price call_or_put : ℝ) : Except String ℝ :=
  match brentq (jamshidianObjective M expiry_time pay_times cash_flows
      strike_price) (-1) 1 with
  | Except.error e => Except.error e
  | Except.ok x_star =>
      Except.ok (((pay_times.zip cash_flows).map (fun p =>
        p.2 * M.zero_bond_option Phi expiry_time p.1
          (M.zero_bond expiry_time x_star p.1) call_or_put)).sum)

/-- C9: for every coupon-bond-option input whose Jamshidian objective has
no sign change on the fixed bracket [-1, 1] (f(-1) * f(1) > 0, the
condition under which scipy brentq raises), coupon_bond_option fails with
the distinct root-not-found error of the root finder rather than
returning a value; when a sign change exists, no error is raised and a
value is returned (the root finder terminates within its own iteration
bound, which is part of the brentq contract assumed here). -/
theorem coupon_bond_option_root_error (M : HullWhiteModel) (Phi : ℝ → ℝ)
    (brentq : (ℝ → ℝ) → ℝ → ℝ → Except String ℝ)
    (herr : ∀ f : ℝ → ℝ, ∀ a b : ℝ, 0 < f a * f b →
      brentq f a b = Except.error "root not found")
    (hok : ∀ f : ℝ → ℝ, ∀ a b : ℝ, ¬0 < f a * f b →
      ∃ r, brentq f a b = Except.ok r)
    (expiry_time : ℝ) (pay_times cash_flows : List ℝ)
    (strike_price call_or_put : ℝ) :
    (0 < jamshidianObjective M expiry_time pay_times cash_flows strike_price
          (-1) *
        jamshidianObjective M expiry_time pay_times cash_flows strike_price 1 →
      M.coupon_bond_option Phi brentq expiry_time pay_times cash_flows
          strike_price call_or_put = Except.error "root not found") ∧
    (¬0 < jamshidianObjective M expiry_time pay_times cash_flows strike_price
          (-1) *
        jamshidianObjective M expiry_time pay_times cash_flows strike_price 1 →
      ∃ v, M.coupon_bond_option Phi brentq expiry_time pay_times cash_flows
          strike_price call_or_put = Except.ok v) := by
  constructor
  · intro hsign
    rw [HullWhiteModel.coupon_bond_option, herr _ _ _ hsign]
  · intro hsign
    obtain ⟨r, hr⟩ := hok _ _ _ hsign
    exact ⟨_, by rw [HullWhiteModel.coupon_bond_option, hr]⟩

/-- Witness for C9: an empty cash-flow schedule with strike 1 makes the
objective constantly -1, so there is no sign change and the root-not-found
error is returned, for the model brentq satisfying the contract. -/
theorem coupon_bond_option_root_error_witness :
    (0:ℝ) <
        jamshidianObjective demoHW 1 [] [] 1 (-1) *
          jamshidianObjective demoHW 1 [] [] 1 1 ∧
      demoHW.coupon_bond_option demoPhi
          (fun f a b =>
            if 0 < f a * f b then Except.error "root not found"
            else Except.ok 0) 1 [] [] 1 1 =
        Except.error "root not found" := by
  have hsign : (0:ℝ) <
      jamshidianObjective demoHW 1 [] [] 1 (-1) *
        jamshidianObjective demoHW 1 [] [] 1 1 := by
    norm_num [jamshidianObjective]
  refine ⟨hsign, ?_⟩
  exact (coupon_bond_option_root_error demoHW demoPhi _
    (fun f a b h => if_pos h) (fun f a b h => ⟨0, if_neg h⟩)
    1 [] [] 1 1).1 hsign

end

end IRM
